import Mathlib

/-!
Verification of the liberyacs configuration library (src/liberyacs/config.py).

The development shallowly embeds the Python module: Python runtime values
become the inductive type `Val`; `CfgNode` instances are dict values carrying
an `isCfgNode` flag; the dynamic primitives that the module delegates to the
Python runtime (`eval` on expression strings, `import_module`, `getattr`,
calling a resolved callable with keyword arguments, and the YAML
serializer/deserializer declared out of scope by the specification) are
abstracted as an oracle record `PyOracle`.

The evaluator `CfgNode._eval` mutates the working tree in place
(`config.pop(...)`, `config[key] = ...`) while the very same object is also
passed as the `local_context` of every expression evaluation
(`config = org_config = self.clone()` binds both names to one clone).  The
embedding makes this aliasing explicit: `evalNode` threads the current value
of the root working tree and the path of the node under evaluation inside it,
and every in-place mutation of the Python code becomes a functional update of
the root at that path.  Nodes that are not part of the tree (results of
expression evaluation) carry no path and their mutations do not touch the
root, matching the fact that `eval` results are freshly built objects.

Recursion is bounded by an explicit fuel parameter that decreases at every
recursive call, so all evaluator functions are structurally recursive and
kernel-computable; theorems that need "enough fuel" take `sizeOf v < fuel`
as a hypothesis.
-/

namespace Liberyacs

/-- Python runtime values as far as the configuration module observes them:
mappings (with a flag telling whether the mapping object is a `CfgNode`
instance or a plain `dict`), lists, tuples, strings, integers, floats
(modelled as rationals), booleans, `None`, and opaque objects (imported
modules, constructed objects, dates, ...) identified by a tag. -/
inductive Val : Type where
  | vdict (isCfgNode : Bool) (entries : List (String × Val))
  | vlist (elems : List Val)
  | vtuple (elems : List Val)
  | vstr (s : String)
  | vint (n : Int)
  | vfloat (q : Rat)
  | vbool (b : Bool)
  | vnone
  | vobj (tag : String)

/-- The special key `extralibs` (module constant `EXTRALIBS`). -/
def EXTRALIBS : String := "extralibs"

/-- The special key `module` (module constant `MODULE`). -/
def MODULE : String := "module"

/-- The special key `name` (module constant `NAME`). -/
def NAME : String := "name"

/-- The special key `kwargs` (module constant `KWARGS`). -/
def KWARGS : String := "kwargs"

/-- First-match lookup in a Python dict represented as an association list.
Python dicts have unique keys, so first-match agrees with dict lookup. -/
def lookupKey : List (String × Val) → String → Option Val
  | [], _ => none
  | (k, v) :: rest, x => if k = x then some v else lookupKey rest x

/-- Python `key in d`. -/
def hasKey (es : List (String × Val)) (x : String) : Bool :=
  (lookupKey es x).isSome

/-- Effect of Python `d.pop(x, default)` on the entry list: the first entry
with key `x` is removed. -/
def eraseKey : List (String × Val) → String → List (String × Val)
  | [], _ => []
  | (k, v) :: rest, x => if k = x then rest else (k, v) :: eraseKey rest x

/-- Effect of Python `d[x] = r`: an existing key keeps its position, a new
key is appended at the end (dict insertion order). -/
def setKeyList : List (String × Val) → String → Val → List (String × Val)
  | [], x, r => [(x, r)]
  | (k, v) :: rest, x, r =>
      if k = x then (k, r) :: rest else (k, v) :: setKeyList rest x r

/-- Python `v is None`. -/
def Val.isNoneV : Val → Bool
  | .vnone => true
  | _ => false

/-- A step inside a path addressing a node of the working tree. -/
inductive PathStep : Type where
  | field (k : String)
  | index (i : Nat)

/-- Paths address the node currently being evaluated inside the root
working tree, so that its in-place mutations can be applied to the root. -/
abbrev Path := List PathStep

/-- Update the entry with key `x` of a dict entry list by `f`. -/
def updateEntry : List (String × Val) → String → (Val → Val) → List (String × Val)
  | [], _, _ => []
  | (k, v) :: rest, x, f =>
      if k = x then (k, f v) :: rest else (k, v) :: updateEntry rest x f

/-- Update the `i`-th element of a list by `f`. -/
def updateIdx : List Val → Nat → (Val → Val) → List Val
  | [], _, _ => []
  | v :: rest, 0, f => f v :: rest
  | v :: rest, i + 1, f => v :: updateIdx rest i f

/-- Apply `f` to the node addressed by `p` inside `v` (identity when the
path does not exist). -/
def updateAt : Val → Path → (Val → Val) → Val
  | v, [], f => f v
  | .vdict b es, .field k :: rest, f =>
      .vdict b (updateEntry es k (fun w => updateAt w rest f))
  | .vlist xs, .index i :: rest, f =>
      .vlist (updateIdx xs i (fun w => updateAt w rest f))
  | .vtuple xs, .index i :: rest, f =>
      .vtuple (updateIdx xs i (fun w => updateAt w rest f))
  | v, _ :: _, _ => v

/-- Apply a mutation at an optional path: nodes with no path are not part of
the working tree (they arose from expression results), so mutating them does
not change the root. -/
def applyAt (root : Val) (p : Option Path) (f : Val → Val) : Val :=
  match p with
  | none => root
  | some path => updateAt root path f

/-- Extend the current path by one step. -/
def pathSnoc (p : Option Path) (s : PathStep) : Option Path :=
  p.map (fun q => q ++ [s])

/-- In-place `d[k] = r` on a dict value. -/
def dictSet (k : String) (r : Val) : Val → Val
  | .vdict b es => .vdict b (setKeyList es k r)
  | v => v

/-- In-place `d.pop(k, ...)` on a dict value. -/
def dictErase (k : String) : Val → Val
  | .vdict b es => .vdict b (eraseKey es k)
  | v => v

/-- Python exceptions the module can raise or propagate. -/
inductive PyErr : Type where
  | valueError (msg : String)
  | typeError (msg : String)
  | attributeError (msg : String)
  | nameError (msg : String)
  | assertionError (msg : String)
  | importError (msg : String)
  | outOfFuel

/-- Oracle for the dynamic Python primitives the module delegates to.

* `evalExpr s scope` models `eval(s, globals, locals)` applied to the
  expression string `s` where all free-name resolution has been packaged
  into the single lookup function `scope` (see `scope` below, which builds
  that function from the globals, the locals and the builtins exactly as
  CPython name lookup does).
* `resolveName m n` models `eval(n, {}, vars(import_module(m)))`: importing
  the module named by `m` and resolving the (possibly dotted) attribute path
  `n` inside the imported module's namespace.  By construction it depends on
  nothing but `m` and `n`.
* `callKw f kw` models calling the resolved callable `f` with the keyword
  arguments `kw`.
* `importMod m` models `import_module(m)` for a string-form extralib entry.
* `importAttr m n` models `getattr(import_module(m), n)` for a mapping-form
  extralib entry.
* `builtins` is the member table of the `builtins` module, which CPython
  inserts into the globals of `eval` whenever the caller's globals dict has
  no `__builtins__` key (the module always passes such a dict).
* `yamlDump` / `yamlParse`: modelled from the spec: the out-of-scope YAML
  serializer and deserializer ("deserializes the text into a nested plain
  structure (mappings, sequences, scalars)"). -/
structure PyOracle : Type where
  evalExpr : String → (String → Option Val) → Except PyErr Val
  resolveName : Val → Val → Except PyErr Val
  callKw : Val → List (String × Val) → Except PyErr Val
  importMod : Val → Except PyErr Val
  importAttr : Val → Val → Except PyErr Val
  builtins : String → Option Val
  yamlDump : Val → String
  yamlParse : String → Except PyErr Val

/-- Name lookup inside the locals mapping passed to `eval`: the locals is
the root working tree, a dict, and lookup reads its keys. -/
def localsLookup : Val → String → Option Val
  | .vdict _ es, x => lookupKey es x
  | _, _ => none

/-- The name-resolution function that `eval(s, global_context, local_context)`
gives to the expression `s`: CPython resolves a free name in the locals,
then in the globals, then in the builtins module (which it injects because
`global_context` never carries a `__builtins__` key). -/
def scope (o : PyOracle) (g : List (String × Val)) (root : Val) (x : String) :
    Option Val :=
  match localsLookup root x with
  | some v => some v
  | none =>
      match lookupKey g x with
      | some v => some v
      | none => o.builtins x

/-- Python `str()` of a value, as interpolated into the module's f-string
error messages (container reprs are abbreviated: no claim exercises them). -/
def pyStr : Val → String
  | .vstr s => s
  | .vnone => "None"
  | .vbool true => "True"
  | .vbool false => "False"
  | .vint n => toString n
  | .vfloat q => toString q
  | .vdict _ _ => "<dict>"
  | .vlist _ => "[...]"
  | .vtuple _ => "(...)"
  | .vobj tag => tag

/-- A single-quote character, as used by Python `repr` of strings. -/
def sq : String := (Char.ofNat 39).toString

/-- Python repr of the key list of a dict, `[str(key) for key in d.keys()]`
style: `['a', 'b']`. -/
def keysRepr (es : List (String × Val)) : String :=
  "[" ++ String.intercalate ", " (es.map (fun kv => sq ++ kv.1 ++ sq)) ++ "]"

/-- The `initialized` test of `CfgNode._eval` (config.py lines 188-191):
`len(config) == 2 and MODULE in config and NAME in config or
 len(config) == 3 and MODULE in config and NAME in config and KWARGS in config`. -/
def isDescShape (es : List (String × Val)) : Bool :=
  (es.length == 2 && hasKey es MODULE && hasKey es NAME)
    || (es.length == 3 && hasKey es MODULE && hasKey es NAME && hasKey es KWARGS)

mutual

/-- Embedding of the `CfgNode` constructor `cls(x)`: `yacs` `__init__` turns
`None` into an empty node, and otherwise runs the overridden
`_create_config_tree_from_dict` (config.py lines 80-98) on `x`, which fails
with an `AttributeError` when `x` is not dict-like (`x.items()`). -/
def cfgNodeInit : Val → Except PyErr Val
  | .vnone => .ok (.vdict true [])
  | .vdict _ es => (createTreeEntries es).map (fun es2 => .vdict true es2)
  | _ => .error (.attributeError "object has no attribute items")

/-- The loop body of `_create_config_tree_from_dict`: dict values become
`cls(v)`, list and tuple values are rebuilt with every element passed
through `cls(ele)`, all other values are kept. -/
def createTreeEntries : List (String × Val) → Except PyErr (List (String × Val))
  | [] => .ok []
  | (k, v) :: rest =>
      (createTreeVal v).bind (fun v2 =>
        (createTreeEntries rest).map (fun rest2 => (k, v2) :: rest2))

/-- Dispatch on one value inside `_create_config_tree_from_dict`. -/
def createTreeVal : Val → Except PyErr Val
  | .vdict b es => cfgNodeInit (.vdict b es)
  | .vlist xs => (createTreeElems xs).map (fun ys => .vlist ys)
  | .vtuple xs => (createTreeElems xs).map (fun ys => .vtuple ys)
  | v => .ok v

/-- `type(v)(cls(ele) for ele in v)`: every element, scalar or not, is
passed to the `CfgNode` constructor. -/
def createTreeElems : List Val → Except PyErr (List Val)
  | [] => .ok []
  | v :: rest =>
      (cfgNodeInit v).bind (fun v2 =>
        (createTreeElems rest).map (fun rest2 => v2 :: rest2))

end

/-- The `for key, value in config.items(): config[key] = CfgNode._eval(...)`
loop: each value is evaluated by `step` at its path, and the resulting
assignment `config[key] = result` is applied to the root working tree
before the next entry is processed (the dict being iterated is part of the
root, so later expression evaluations see earlier results). -/
def runEntries (step : Val → Val → Option Path → Except PyErr (Val × Val)) :
    List (String × Val) → Val → Option Path →
    Except PyErr (List (String × Val) × Val)
  | [], root, _ => .ok ([], root)
  | (k, v) :: rest, root, p =>
      (step v root (pathSnoc p (.field k))).bind (fun r1 =>
        let root2 := applyAt r1.2 p (dictSet k r1.1)
        (runEntries step rest root2 p).map (fun r2 => ((k, r1.1) :: r2.1, r2.2)))

/-- The `type(config)(map(lambda ele: CfgNode._eval(...), config))` loop for
lists and tuples: elements are evaluated left to right at their index paths
and a fresh container is built from the results; no per-index assignment is
made to the old container. -/
def runElems (step : Val → Val → Option Path → Except PyErr (Val × Val)) :
    List Val → Val → Option Path → Nat → Except PyErr (List Val × Val)
  | [], root, _, _ => .ok ([], root)
  | x :: xs, root, p, i =>
      (step x root (pathSnoc p (.index i))).bind (fun r1 =>
        (runElems step xs r1.2 p (i + 1)).map (fun r2 => (r1.1 :: r2.1, r2.2)))

/-- The continuation of the string case of `CfgNode._eval` (config.py lines
218-220): a string result of the expression evaluation is returned as-is,
any other result is fed back through the node-evaluation `step` (off the
tree: path `none`). -/
def strStep (step : Val → Val → Option Path → Except PyErr (Val × Val))
    (root : Val) : Val → Except PyErr (Val × Val)
  | .vstr t => .ok (.vstr t, root)
  | r2 => step r2 root none

/-- Embedding of `CfgNode._eval(config, global_context, local_context)`
(config.py lines 174-222).  `root` is the current value of the root working
tree — the object that the method `eval` passes as `local_context` — and
`p` is the path of `config` inside it (`none` when `config` is not part of
the tree, i.e. it arose from an expression result).  The returned pair is
(result of `_eval`, value of the root after all in-place mutations).

Fuel decreases at every recursive call; `.outOfFuel` stands for a
computation deeper than the supplied fuel (Python itself would recurse
without bound there). -/
def evalNode (o : PyOracle) (g : List (String × Val)) :
    Nat → Val → Val → Option Path → Except PyErr (Val × Val)
  | 0, _, _, _ => .error .outOfFuel
  | n + 1, .vdict isCfg es, root, p =>
      if isDescShape es then
        -- module = config.pop(MODULE, None); name = config.pop(NAME, None)
        let moduleV := (lookupKey es MODULE).getD .vnone
        let nameV := (lookupKey (eraseKey es MODULE) NAME).getD .vnone
        let es1 := eraseKey (eraseKey es MODULE) NAME
        let root1 := applyAt (applyAt root p (dictErase MODULE)) p (dictErase NAME)
        (runEntries (evalNode o g n) es1 root1 p).bind (fun r1 =>
          -- kwargs = config.pop(KWARGS, {})
          let kwargsV := (lookupKey r1.1 KWARGS).getD (.vdict false [])
          let root3 := applyAt r1.2 p (dictErase KWARGS)
          match kwargsV with
          | .vdict _ kw =>
              -- eval(name, {}, vars(import_module(module)))(**kwargs)
              (o.resolveName moduleV nameV).bind (fun f =>
                (o.callKw f kw).map (fun r => (r, root3)))
          | _ => .error (.typeError "argument after ** must be a mapping"))
      else
        (runEntries (evalNode o g n) es root p).bind (fun r1 =>
          if isCfg then .ok (.vdict true r1.1, r1.2)
          else (cfgNodeInit (.vdict false r1.1)).map (fun w => (w, r1.2)))
  | n + 1, .vlist xs, root, p =>
      (runElems (evalNode o g n) xs root p 0).map (fun r => (.vlist r.1, r.2))
  | n + 1, .vtuple xs, root, p =>
      (runElems (evalNode o g n) xs root p 0).map (fun r => (.vtuple r.1, r.2))
  | n + 1, .vstr s, root, _ =>
      -- config = eval(config, global_context, local_context)
      (o.evalExpr s (scope o g root)).bind (strStep (evalNode o g n) root)
  | _ + 1, v, root, _ => .ok (v, root)

/-- The f-string of config.py lines 155-156: the error message naming the
missing `module`/`name` fields of an extralib entry and their values. -/
def missingMsg (moduleV nameV : Val) : String :=
  "`" ++ MODULE ++ "` and `" ++ NAME ++ "` must be both specified in `"
    ++ EXTRALIBS ++ "`, found " ++ MODULE ++ ": " ++ pyStr moduleV
    ++ ", " ++ NAME ++ ": " ++ pyStr nameV ++ "."

/-- The f-string of config.py line 160: the error message listing the
disallowed extra keys of an extralib entry. -/
def extraMsg (es2 : List (String × Val)) : String :=
  "Only " ++ MODULE ++ " and " ++ NAME ++ " are allowed, found "
    ++ keysRepr es2 ++ "."

/-- Resolution of a single extralib entry value (config.py lines 148-165):
mapping form pops `module` and `name`, requires both non-`None`, rejects any
further key, and imports the attribute; any other form is passed to
`import_module` wholesale. -/
def resolveEntry (o : PyOracle) : Val → Except PyErr Val
  | .vdict _ es =>
      let moduleV := (lookupKey es MODULE).getD .vnone
      let es1 := eraseKey es MODULE
      let nameV := (lookupKey es1 NAME).getD .vnone
      let es2 := eraseKey es1 NAME
      if moduleV.isNoneV || nameV.isNoneV then
        .error (.valueError (missingMsg moduleV nameV))
      else if es2.isEmpty then o.importAttr moduleV nameV
      else .error (.valueError (extraMsg es2))
  | v => o.importMod v

/-- The `for alias, lib_info in config.pop(EXTRALIBS, {}).items()` loop
building the global context `extralibs[alias] = lib`. -/
def resolveExtralibs (o : PyOracle) :
    List (String × Val) → List (String × Val) →
    Except PyErr (List (String × Val))
  | [], acc => .ok acc
  | (a, info) :: rest, acc =>
      (resolveEntry o info).bind (fun lib =>
        resolveExtralibs o rest (setKeyList acc a lib))

/-- Embedding of the method `CfgNode.eval` (config.py lines 136-172),
returning both the method's result and the final value of the root working
tree.  `config = org_config = self.clone()` binds the working tree and the
`local_context` to one and the same deep copy of `self`, so the embedding
starts from `self`'s value, pops `extralibs` from it, resolves the extralib
table, and runs `_eval` with the resulting tree as both the node under
evaluation and the root (path `[]`). -/
def evalMethodRoots (o : PyOracle) (fuel : Nat) (self : Val) :
    Except PyErr (Val × Val) :=
  match self with
  | .vdict b es =>
      let exVal := (lookupKey es EXTRALIBS).getD (.vdict false [])
      let es0 := eraseKey es EXTRALIBS
      (match exVal with
        | .vdict _ l => .ok l
        | _ => .error (.attributeError "object has no attribute items") :
          Except PyErr (List (String × Val))).bind (fun exEntries =>
        (resolveExtralibs o exEntries []).bind (fun g =>
          evalNode o g fuel (.vdict b es0) (.vdict b es0) (some [])))
  | _ => .error (.attributeError "object has no attribute pop")

/-- The method `CfgNode.eval` together with the final value of `self`:
every mutation performed during evaluation (the `extralibs` pop at line 147,
the pops at lines 150-151 and 195-204, the assignments at line 200) targets
the clone created at line 143 or objects detached from it, never `self`
itself, so the final value of `self` is its initial value. -/
def evalMethodFrame (o : PyOracle) (fuel : Nat) (self : Val) :
    Except PyErr Val × Val :=
  ((evalMethodRoots o fuel self).map (fun r => r.1), self)

/-- The method `CfgNode.eval`: the value it returns. -/
def evalMethod (o : PyOracle) (fuel : Nat) (self : Val) : Except PyErr Val :=
  (evalMethodFrame o fuel self).1

mutual

/-- Embedding of `CfgNode._convert_to_cfg_node` (config.py lines 56-78):
dicts become fresh `CfgNode`s with recursively converted values, lists are
rebuilt with recursively converted elements, and everything else — tuples
included — is returned unchanged. -/
def convertToCfgNode : Val → Val
  | .vdict _ es => .vdict true (convertEntries es)
  | .vlist xs => .vlist (convertElems xs)
  | v => v

/-- The `for key, value in data.items()` loop of `_convert_to_cfg_node`. -/
def convertEntries : List (String × Val) → List (String × Val)
  | [] => []
  | (k, v) :: rest => (k, convertToCfgNode v) :: convertEntries rest

/-- The list comprehension of `_convert_to_cfg_node`. -/
def convertElems : List Val → List Val
  | [] => []
  | v :: rest => convertToCfgNode v :: convertElems rest

end

/-- The whitelist test `_valid_type(v)` of `yacs` used by `dump`:
`type(v) in {tuple, list, str, int, float, bool, type(None)}`.  The check is
shallow — it looks only at the outermost type. -/
def validTypeB : Val → Bool
  | .vtuple _ => true
  | .vlist _ => true
  | .vstr _ => true
  | .vint _ => true
  | .vfloat _ => true
  | .vbool _ => true
  | .vnone => true
  | _ => false

mutual

/-- Embedding of the inner `convert_to_dict` of `CfgNode.dump` (config.py
lines 118-131): a `CfgNode` becomes a plain dict with recursively converted
values; any other value must pass the whitelist check and is returned
unchanged (elements of lists and tuples are not visited). -/
def toDictTree : Val → Except PyErr Val
  | .vdict true es => (toDictEntries es).map (fun es2 => .vdict false es2)
  | v =>
      if validTypeB v then .ok v
      else .error (.assertionError "value is not a valid type to dump")

/-- The `for k, v in cfg_dict.items()` loop of `convert_to_dict`. -/
def toDictEntries : List (String × Val) → Except PyErr (List (String × Val))
  | [] => .ok []
  | (k, v) :: rest =>
      (toDictTree v).bind (fun v2 =>
        (toDictEntries rest).map (fun rest2 => (k, v2) :: rest2))

end

/-- Embedding of `CfgNode.dump` (config.py lines 115-134): project the tree
to plain dicts and hand it to the YAML serializer. -/
def dumpStr (o : PyOracle) (self : Val) : Except PyErr String :=
  (toDictTree self).map o.yamlDump

/-- Python `isinstance(v, CfgNode)`. -/
def isCfgNodeVal : Val → Bool
  | .vdict true _ => true
  | _ => false

/-- Embedding of `CfgNode.load` (config.py lines 25-54) applied to the text
of the file: the YAML deserialization of `CfgNode.load_cfg` is modelled from
the spec ("deserializes the text into a nested plain structure") by the
oracle's `yamlParse`; the result is rebuilt by `_convert_to_cfg_node`,
optionally evaluated, and finally asserted to be a `CfgNode`. -/
def loadFromText (o : PyOracle) (fuel : Nat) (text : String) (evaluate : Bool) :
    Except PyErr Val :=
  (o.yamlParse text).bind (fun parsed =>
    let config := convertToCfgNode parsed
    (if evaluate then evalMethod o fuel config else .ok config).bind
      (fun config2 =>
        if isCfgNodeVal config2 then .ok config2
        else .error (.assertionError "result is not a CfgNode")))

mutual

/-- A tree with no dynamic nodes: every dict reachable by the evaluator is a
`CfgNode`, is not descriptor-shaped, and the tree holds no string node. -/
def noDynamic : Val → Bool
  | .vdict isCfg es => isCfg && !isDescShape es && noDynamicEntries es
  | .vlist xs => noDynamicElems xs
  | .vtuple xs => noDynamicElems xs
  | .vstr _ => false
  | _ => true

/-- Entry-list form of `noDynamic`. -/
def noDynamicEntries : List (String × Val) → Bool
  | [] => true
  | (_, v) :: rest => noDynamic v && noDynamicEntries rest

/-- Element-list form of `noDynamic`. -/
def noDynamicElems : List Val → Bool
  | [] => true
  | v :: rest => noDynamic v && noDynamicElems rest

end

mutual

/-- Every dict reachable through dicts and lists (the containers that
`_convert_to_cfg_node` and `convert_to_dict` traverse) is a `CfgNode`. -/
def wfReach : Val → Bool
  | .vdict b es => b && wfReachEntries es
  | .vlist xs => wfReachElems xs
  | _ => true

/-- Entry-list form of `wfReach`. -/
def wfReachEntries : List (String × Val) → Bool
  | [] => true
  | (_, v) :: rest => wfReach v && wfReachEntries rest

/-- Element-list form of `wfReach`. -/
def wfReachElems : List Val → Bool
  | [] => true
  | v :: rest => wfReach v && wfReachElems rest

end

/-- Modelled from the spec: the entry-list loop of a variant evaluator in
which `local_context` is a fixed, never-mutated original tree, as the spec
describes ("`local_context` is the unevaluated original tree").  Used only
to compare the specification's description with the code's evaluator. -/
def specEntries (step : Val → Except PyErr Val) :
    List (String × Val) → Except PyErr (List (String × Val))
  | [] => .ok []
  | (k, v) :: rest =>
      (step v).bind (fun r =>
        (specEntries step rest).map (fun rs => (k, r) :: rs))

/-- Modelled from the spec: element-list loop of the fixed-locals variant
evaluator. -/
def specElems (step : Val → Except PyErr Val) :
    List Val → Except PyErr (List Val)
  | [] => .ok []
  | v :: rest =>
      (step v).bind (fun r =>
        (specElems step rest).map (fun rs => r :: rs))

/-- Modelled from the spec: the recursive evaluator as the specification
describes it, with the locals of every string evaluation being the fixed
unevaluated original tree `orig` ("both the clone and an unmodified copy of
the original are kept — the original is used as part of the
expression-evaluation context").  Identical to `evalNode` in every other
respect. -/
def evalNodeSpec (o : PyOracle) (g : List (String × Val)) (orig : Val) :
    Nat → Val → Except PyErr Val
  | 0, _ => .error .outOfFuel
  | n + 1, .vdict isCfg es =>
      if isDescShape es then
        let moduleV := (lookupKey es MODULE).getD .vnone
        let nameV := (lookupKey (eraseKey es MODULE) NAME).getD .vnone
        let es1 := eraseKey (eraseKey es MODULE) NAME
        (specEntries (evalNodeSpec o g orig n) es1).bind (fun es2 =>
          match (lookupKey es2 KWARGS).getD (.vdict false []) with
          | .vdict _ kw =>
              (o.resolveName moduleV nameV).bind (fun f => o.callKw f kw)
          | _ => .error (.typeError "argument after ** must be a mapping"))
      else
        (specEntries (evalNodeSpec o g orig n) es).bind (fun es2 =>
          if isCfg then .ok (.vdict true es2)
          else cfgNodeInit (.vdict false es2))
  | n + 1, .vlist xs =>
      (specElems (evalNodeSpec o g orig n) xs).map (fun ys => .vlist ys)
  | n + 1, .vtuple xs =>
      (specElems (evalNodeSpec o g orig n) xs).map (fun ys => .vtuple ys)
  | n + 1, .vstr s =>
      (o.evalExpr s (scope o g orig)).bind (fun r =>
        match r with
        | .vstr t => .ok (.vstr t)
        | r2 => evalNodeSpec o g orig n r2)
  | _ + 1, v => .ok v

/-- Modelled from the spec: the method `eval` as the specification reads,
keeping the unevaluated original input tree (`self`, extralibs included) as
the locals of every expression evaluation. -/
def evalMethodSpec (o : PyOracle) (fuel : Nat) (self : Val) :
    Except PyErr Val :=
  match self with
  | .vdict b es =>
      let exVal := (lookupKey es EXTRALIBS).getD (.vdict false [])
      let es0 := eraseKey es EXTRALIBS
      (match exVal with
        | .vdict _ l => .ok l
        | _ => .error (.attributeError "object has no attribute items") :
          Except PyErr (List (String × Val))).bind (fun exEntries =>
        (resolveExtralibs o exEntries []).bind (fun g =>
          evalNodeSpec o g self fuel (.vdict b es0)))
  | _ => .error (.attributeError "object has no attribute pop")

/-- The key set of a dict node, as a finite set of strings. -/
def keyFinset (es : List (String × Val)) : Finset String :=
  (es.map Prod.fst).toFinset

/-- An oracle all of whose dynamic primitives fail (and whose builtins table
is empty): useful to show that a computation consults no primitive. -/
def errOracle : PyOracle where
  evalExpr := fun _ _ => .error (.nameError "unavailable")
  resolveName := fun _ _ => .error (.importError "unavailable")
  callKw := fun _ _ => .error (.typeError "unavailable")
  importMod := fun _ => .error (.importError "unavailable")
  importAttr := fun _ _ => .error (.importError "unavailable")
  builtins := fun _ => none
  yamlDump := fun _ => ""
  yamlParse := fun _ => .error (.valueError "unavailable")

/-- Concrete oracle: `eval` behaves as Python on the arithmetic literal
expression `1+1` and on the bare name `a` (resolved through the scope
chain); `import_module` imports a module object. -/
def exprOracle : PyOracle :=
  { errOracle with
    evalExpr := fun s sc =>
      if s = "1+1" then .ok (.vint 2)
      else if s = "a" then
        match sc "a" with
        | some v => .ok v
        | none => .error (.nameError "name a is not defined")
      else .error (.nameError s)
    importMod := fun m =>
      match m with
      | .vstr mn => .ok (.vobj ("module " ++ mn))
      | _ => .error (.typeError "module name must be str") }

/-- Concrete oracle for the `math.sqrt` descriptor example:
`eval("sqrt", {}, vars(import_module("math")))` yields the sqrt callable and
calling it with `x=16` yields `4.0`. -/
def sqrtOracle : PyOracle :=
  { errOracle with
    resolveName := fun m n =>
      match m, n with
      | .vstr "math", .vstr "sqrt" => .ok (.vobj "math.sqrt")
      | _, _ => .error (.importError "cannot resolve")
    callKw := fun f kw =>
      match f, kw with
      | .vobj "math.sqrt", [("x", .vint 16)] => .ok (.vfloat 4)
      | _, _ => .error (.typeError "bad call") }

/-- Concrete oracle for the nested re-evaluation example: the expression
`D` evaluates to a plain dict literal that is itself a descriptor, whose
resolution constructs an object; the expression `S` evaluates to a plain
string. -/
def descOracle : PyOracle :=
  { errOracle with
    evalExpr := fun s _ =>
      if s = "D" then
        .ok (.vdict false [(MODULE, .vstr "m"), (NAME, .vstr "f")])
      else if s = "S" then .ok (.vstr "some text")
      else .error (.nameError s)
    resolveName := fun m n =>
      match m, n with
      | .vstr "m", .vstr "f" => .ok (.vobj "m.f")
      | _, _ => .error (.importError "cannot resolve")
    callKw := fun f kw =>
      match f, kw with
      | .vobj "m.f", [] => .ok (.vobj "built")
      | _, _ => .error (.typeError "bad call") }

/-- Concrete oracle: `eval` behaves as Python on bare-name expressions (the
value of the name under the scope chain), and the builtins table holds the
builtin `len`. -/
def lenOracle : PyOracle :=
  { errOracle with
    evalExpr := fun s sc =>
      match sc s with
      | some v => .ok v
      | none => .error (.nameError s)
    builtins := fun x => if x = "len" then some (.vobj "builtin len") else none }

/-- The example tree of the self-reference scenario: `a` is an expression
node and `b` references `a` by name. -/
def tAB : Val := .vdict true [("a", .vstr "1+1"), ("b", .vstr "a")]

/-- A tree with an extralibs section and an expression node. -/
def tExtra : Val :=
  .vdict true [(EXTRALIBS, .vdict true [("np", .vstr "numpy")]),
               ("a", .vstr "1+1")]

/-- A tree with no string, descriptor or extralibs node. -/
def tPlain : Val :=
  .vdict true [("x", .vint 3), ("l", .vlist [.vbool true, .vnone])]

/-- A whitelisted tree for the dump/load round trip. -/
def tRound : Val :=
  .vdict true [("a", .vint 1), ("l", .vlist [.vint 2]),
               ("sub", .vdict true [("b", .vstr "c")])]

/-- The plain-dict projection of `tRound` produced by `dump`. -/
def pRound : Val :=
  .vdict false [("a", .vint 1), ("l", .vlist [.vint 2]),
                ("sub", .vdict false [("b", .vstr "c")])]

/-- Concrete oracle whose YAML pair round-trips `pRound`. -/
def yamlOracle : PyOracle :=
  { errOracle with
    yamlDump := fun _ => "yamltext"
    yamlParse := fun t =>
      if t = "yamltext" then .ok pRound else .error (.valueError "bad yaml") }

/-- The entries of the descriptor `{module: "math", name: "sqrt",
kwargs: {x: 16}}`. -/
def sqrtEntries : List (String × Val) :=
  [(MODULE, .vstr "math"), (NAME, .vstr "sqrt"),
   (KWARGS, .vdict true [("x", .vint 16)])]

/-- A malformed extralib entry: `name` is missing. -/
def badLibEntry : Val := .vdict true [(MODULE, .vstr "math")]

/-- A tree whose extralibs section contains a malformed entry, next to an
expression node that must never be evaluated. -/
def tBadExtra : Val :=
  .vdict true [(EXTRALIBS, .vdict true [("bad", badLibEntry)]),
               ("x", .vstr "1+1")]

/-! Infrastructure lemmas. -/

theorem sizeOf_snd_lt_of_mem_entries {kv : String × Val} {b : Bool}
    {es : List (String × Val)} (hkv : kv ∈ es) :
    sizeOf kv.2 < sizeOf (Val.vdict b es) := by
  have h1 := List.sizeOf_lt_of_mem hkv
  obtain ⟨k, v⟩ := kv
  simp only [Val.vdict.sizeOf_spec, Prod.mk.sizeOf_spec] at *
  omega

theorem sizeOf_lt_of_mem_vlist {x : Val} {xs : List Val} (hx : x ∈ xs) :
    sizeOf x < sizeOf (Val.vlist xs) := by
  have h1 := List.sizeOf_lt_of_mem hx
  simp only [Val.vlist.sizeOf_spec] at *
  omega

theorem sizeOf_lt_of_mem_vtuple {x : Val} {xs : List Val} (hx : x ∈ xs) :
    sizeOf x < sizeOf (Val.vtuple xs) := by
  have h1 := List.sizeOf_lt_of_mem hx
  simp only [Val.vtuple.sizeOf_spec] at *
  omega

/-- Structural induction principle for the nested inductive `Val`. -/
theorem Val.inductionOn (P : Val → Prop)
    (hdict : ∀ b es, (∀ kv, kv ∈ es → P kv.2) → P (.vdict b es))
    (hlist : ∀ xs, (∀ x, x ∈ xs → P x) → P (.vlist xs))
    (htuple : ∀ xs, (∀ x, x ∈ xs → P x) → P (.vtuple xs))
    (hstr : ∀ s, P (.vstr s))
    (hint : ∀ n, P (.vint n))
    (hfloat : ∀ q, P (.vfloat q))
    (hbool : ∀ b, P (.vbool b))
    (hnone : P .vnone)
    (hobj : ∀ t, P (.vobj t)) :
    ∀ v, P v
  | .vdict b es =>
      hdict b es (fun kv hkv =>
        Val.inductionOn P hdict hlist htuple hstr hint hfloat hbool hnone hobj kv.2)
  | .vlist xs =>
      hlist xs (fun x hx =>
        Val.inductionOn P hdict hlist htuple hstr hint hfloat hbool hnone hobj x)
  | .vtuple xs =>
      htuple xs (fun x hx =>
        Val.inductionOn P hdict hlist htuple hstr hint hfloat hbool hnone hobj x)
  | .vstr s => hstr s
  | .vint n => hint n
  | .vfloat q => hfloat q
  | .vbool b => hbool b
  | .vnone => hnone
  | .vobj t => hobj t
termination_by v => sizeOf v
decreasing_by
  · exact sizeOf_snd_lt_of_mem_entries hkv
  · exact sizeOf_lt_of_mem_vlist hx
  · exact sizeOf_lt_of_mem_vtuple hx

theorem lookupKey_eq_none_of_not_hasKey {es : List (String × Val)} {x : String}
    (h : hasKey es x = false) : lookupKey es x = none := by
  unfold hasKey at h
  cases hl : lookupKey es x with
  | none => rfl
  | some v => rw [hl] at h; simp at h

theorem eraseKey_of_not_hasKey {es : List (String × Val)} {x : String}
    (h : hasKey es x = false) : eraseKey es x = es := by
  induction es with
  | nil => rfl
  | cons kv rest ih =>
      obtain ⟨k, v⟩ := kv
      by_cases hk : k = x
      · exfalso
        unfold hasKey lookupKey at h
        rw [if_pos hk] at h
        simp at h
      · unfold eraseKey
        rw [if_neg hk]
        unfold hasKey lookupKey at h
        rw [if_neg hk] at h
        rw [ih h]

theorem noDynamic_vdict {b : Bool} {es : List (String × Val)}
    (h : noDynamic (.vdict b es) = true) :
    b = true ∧ isDescShape es = false ∧ noDynamicEntries es = true := by
  rw [noDynamic] at h
  simp only [Bool.and_eq_true, Bool.not_eq_eq_eq_not, Bool.not_true] at h
  exact ⟨h.1.1, by simpa using h.1.2, h.2⟩

theorem noDynamicEntries_mem {es : List (String × Val)}
    (h : noDynamicEntries es = true) {kv : String × Val} (hkv : kv ∈ es) :
    noDynamic kv.2 = true := by
  induction es with
  | nil => cases hkv
  | cons hd rest ih =>
      obtain ⟨k, v⟩ := hd
      rw [noDynamicEntries] at h
      simp only [Bool.and_eq_true] at h
      rcases List.mem_cons.mp hkv with heq | hm
      · rw [heq]
        exact h.1
      · exact ih h.2 hm

theorem noDynamicElems_mem {xs : List Val}
    (h : noDynamicElems xs = true) {x : Val} (hx : x ∈ xs) :
    noDynamic x = true := by
  induction xs with
  | nil => cases hx
  | cons hd rest ih =>
      rw [noDynamicElems] at h
      simp only [Bool.and_eq_true] at h
      rcases List.mem_cons.mp hx with heq | hm
      · rw [heq]
        exact h.1
      · exact ih h.2 hm

@[simp] theorem exbind_ok {α β : Type} (a : α) (f : α → Except PyErr β) :
    Except.bind (.ok a) f = f a := rfl

@[simp] theorem exbind_error {α β : Type} (e : PyErr) (f : α → Except PyErr β) :
    Except.bind (.error e) f = (.error e : Except PyErr β) := rfl

@[simp] theorem exmap_ok {α β : Type} (a : α) (f : α → β) :
    Except.map f (.ok a : Except PyErr α) = .ok (f a) := rfl

@[simp] theorem exmap_error {α β : Type} (e : PyErr) (f : α → β) :
    Except.map f (.error e : Except PyErr α) = (.error e : Except PyErr β) := rfl

/-- A `noDynamic` entry list evaluates to itself under any step function
that evaluates its values to themselves. -/
theorem runEntries_plain
    (step : Val → Val → Option Path → Except PyErr (Val × Val))
    (es : List (String × Val))
    (hstep : ∀ kv, kv ∈ es → ∀ root p, ∃ root2, step kv.2 root p = .ok (kv.2, root2)) :
    ∀ root p, ∃ root2, runEntries step es root p = .ok (es, root2) := by
  induction es with
  | nil => exact fun root p => ⟨root, rfl⟩
  | cons hd rest ih =>
      obtain ⟨k, v⟩ := hd
      intro root p
      obtain ⟨r1, hr1⟩ :=
        hstep (k, v) (List.mem_cons_self _ _) root (pathSnoc p (.field k))
      obtain ⟨r2, hr2⟩ :=
        ih (fun kv hkv root2 p2 => hstep kv (List.mem_cons_of_mem _ hkv) root2 p2)
          (applyAt r1 p (dictSet k v)) p
      refine ⟨r2, ?_⟩
      rw [runEntries, hr1]
      simp [hr2]

/-- A list of `noDynamic` elements evaluates to itself under any step
function that evaluates its elements to themselves. -/
theorem runElems_plain
    (step : Val → Val → Option Path → Except PyErr (Val × Val))
    (xs : List Val)
    (hstep : ∀ x, x ∈ xs → ∀ root p, ∃ root2, step x root p = .ok (x, root2)) :
    ∀ root p i, ∃ root2, runElems step xs root p i = .ok (xs, root2) := by
  induction xs with
  | nil => exact fun root p i => ⟨root, rfl⟩
  | cons hd rest ih =>
      intro root p i
      obtain ⟨r1, hr1⟩ :=
        hstep hd (List.mem_cons_self _ _) root (pathSnoc p (.index i))
      obtain ⟨r2, hr2⟩ :=
        ih (fun x hx root2 p2 => hstep x (List.mem_cons_of_mem _ hx) root2 p2)
          r1 p (i + 1)
      refine ⟨r2, ?_⟩
      rw [runElems, hr1]
      simp [hr2]

theorem hasKey_iff_mem {es : List (String × Val)} {x : String} :
    hasKey es x = true ↔ x ∈ es.map Prod.fst := by
  induction es with
  | nil => simp [hasKey, lookupKey]
  | cons kv rest ih =>
      obtain ⟨k, v⟩ := kv
      by_cases hk : k = x
      · subst hk
        simp [hasKey, lookupKey]
      · have h2 : ¬x = k := fun h => hk h.symm
        simp only [hasKey, lookupKey, if_neg hk, List.map_cons, List.mem_cons]
        rw [← hasKey]
        simp [ih, h2]

theorem nodup_two_mem_iff {l : List String} (hnd : l.Nodup) {a b : String}
    (hab : a ≠ b) :
    (l.length = 2 ∧ a ∈ l ∧ b ∈ l) ↔ l.toFinset = {a, b} := by
  have hcard2 : ({a, b} : Finset String).card = 2 := Finset.card_pair hab
  constructor
  · rintro ⟨hlen, ha, hb⟩
    have hsub : ({a, b} : Finset String) ⊆ l.toFinset := by
      intro x hx
      rcases Finset.mem_insert.mp hx with hxa | hxb
      · subst hxa; exact List.mem_toFinset.mpr ha
      · rw [Finset.mem_singleton] at hxb; subst hxb; exact List.mem_toFinset.mpr hb
    have hle : l.toFinset.card ≤ ({a, b} : Finset String).card := by
      rw [hcard2, List.toFinset_card_of_nodup hnd, hlen]
    exact (Finset.eq_of_subset_of_card_le hsub hle).symm
  · intro hfin
    refine ⟨?_, ?_, ?_⟩
    · rw [← List.toFinset_card_of_nodup hnd, hfin, hcard2]
    · exact List.mem_toFinset.mp (by rw [hfin]; simp)
    · exact List.mem_toFinset.mp (by rw [hfin]; simp)

theorem nodup_three_mem_iff {l : List String} (hnd : l.Nodup) {a b c : String}
    (hab : a ≠ b) (hac : a ≠ c) (hbc : b ≠ c) :
    (l.length = 3 ∧ a ∈ l ∧ b ∈ l ∧ c ∈ l) ↔ l.toFinset = {a, b, c} := by
  have hcard3 : ({a, b, c} : Finset String).card = 3 := by
    rw [Finset.card_insert_of_not_mem (by simp [hab, hac]), Finset.card_pair hbc]
  constructor
  · rintro ⟨hlen, ha, hb, hc⟩
    have hsub : ({a, b, c} : Finset String) ⊆ l.toFinset := by
      intro x hx
      rcases Finset.mem_insert.mp hx with hxa | hx2
      · subst hxa; exact List.mem_toFinset.mpr ha
      · rcases Finset.mem_insert.mp hx2 with hxb | hxc
        · subst hxb; exact List.mem_toFinset.mpr hb
        · rw [Finset.mem_singleton] at hxc; subst hxc; exact List.mem_toFinset.mpr hc
    have hle : l.toFinset.card ≤ ({a, b, c} : Finset String).card := by
      rw [hcard3, List.toFinset_card_of_nodup hnd, hlen]
    exact (Finset.eq_of_subset_of_card_le hsub hle).symm
  · intro hfin
    refine ⟨?_, ?_, ?_, ?_⟩
    · rw [← List.toFinset_card_of_nodup hnd, hfin, hcard3]
    · exact List.mem_toFinset.mp (by rw [hfin]; simp)
    · exact List.mem_toFinset.mp (by rw [hfin]; simp)
    · exact List.mem_toFinset.mp (by rw [hfin]; simp)

theorem wfReach_vdict {b : Bool} {es : List (String × Val)}
    (h : wfReach (.vdict b es) = true) :
    b = true ∧ wfReachEntries es = true := by
  rw [wfReach] at h
  simpa using h

theorem wfReachEntries_mem {es : List (String × Val)}
    (h : wfReachEntries es = true) {kv : String × Val} (hkv : kv ∈ es) :
    wfReach kv.2 = true := by
  induction es with
  | nil => cases hkv
  | cons hd rest ih =>
      obtain ⟨k, v⟩ := hd
      rw [wfReachEntries] at h
      simp only [Bool.and_eq_true] at h
      rcases List.mem_cons.mp hkv with heq | hm
      · rw [heq]; exact h.1
      · exact ih h.2 hm

theorem wfReachElems_mem {xs : List Val}
    (h : wfReachElems xs = true) {x : Val} (hx : x ∈ xs) :
    wfReach x = true := by
  induction xs with
  | nil => cases hx
  | cons hd rest ih =>
      rw [wfReachElems] at h
      simp only [Bool.and_eq_true] at h
      rcases List.mem_cons.mp hx with heq | hm
      · rw [heq]; exact h.1
      · exact ih h.2 hm

theorem convertEntries_id {es : List (String × Val)}
    (h : ∀ kv, kv ∈ es → convertToCfgNode kv.2 = kv.2) :
    convertEntries es = es := by
  induction es with
  | nil => rfl
  | cons hd rest ih =>
      obtain ⟨k, v⟩ := hd
      rw [convertEntries, h (k, v) (List.mem_cons_self _ _),
        ih (fun kv hkv => h kv (List.mem_cons_of_mem _ hkv))]

theorem convertElems_id {xs : List Val}
    (h : ∀ x, x ∈ xs → convertToCfgNode x = x) :
    convertElems xs = xs := by
  induction xs with
  | nil => rfl
  | cons hd rest ih =>
      rw [convertElems, h hd (List.mem_cons_self _ _),
        ih (fun x hx => h x (List.mem_cons_of_mem _ hx))]

/-- On a tree all of whose dict nodes (reachable through dicts and lists)
are already `CfgNode`s, `_convert_to_cfg_node` is the identity. -/
theorem convertToCfgNode_wfReach :
    ∀ v, wfReach v = true → convertToCfgNode v = v := by
  intro v
  induction v using Val.inductionOn with
  | hdict b es IH =>
      intro h
      obtain ⟨hb, hents⟩ := wfReach_vdict h
      subst hb
      rw [convertToCfgNode,
        convertEntries_id (fun kv hkv => IH kv hkv (wfReachEntries_mem hents hkv))]
  | hlist xs IH =>
      intro h
      rw [wfReach] at h
      rw [convertToCfgNode,
        convertElems_id (fun x hx => IH x hx (wfReachElems_mem h hx))]
  | htuple xs IH => intro h; simp [convertToCfgNode]
  | hstr s => intro h; simp [convertToCfgNode]
  | hint n => intro h; simp [convertToCfgNode]
  | hfloat q => intro h; simp [convertToCfgNode]
  | hbool b => intro h; simp [convertToCfgNode]
  | hnone => intro h; simp [convertToCfgNode]
  | hobj t => intro h; simp [convertToCfgNode]

theorem toDictEntries_convert {es es2 : List (String × Val)}
    (hok : toDictEntries es = .ok es2)
    (hwf : ∀ kv, kv ∈ es → wfReach kv.2 = true)
    (IH : ∀ kv, kv ∈ es → ∀ pv, toDictTree kv.2 = .ok pv →
      convertToCfgNode pv = kv.2) :
    convertEntries es2 = es := by
  induction es generalizing es2 with
  | nil =>
      rw [toDictEntries] at hok
      cases hok
      rfl
  | cons hd rest ih =>
      obtain ⟨k, v⟩ := hd
      rw [toDictEntries] at hok
      cases hv : toDictTree v with
      | error e => rw [hv] at hok; simp at hok
      | ok v2 =>
          rw [hv] at hok
          cases hrest : toDictEntries rest with
          | error e => rw [hrest] at hok; simp at hok
          | ok rest2 =>
              rw [hrest] at hok
              simp only [exbind_ok, exmap_ok] at hok
              cases hok
              rw [convertEntries,
                IH (k, v) (List.mem_cons_self _ _) v2 hv,
                ih hrest (fun kv hkv => hwf kv (List.mem_cons_of_mem _ hkv))
                  (fun kv hkv => IH kv (List.mem_cons_of_mem _ hkv))]

/-- Projecting a well-formed tree to plain dicts with `convert_to_dict` and
rebuilding it with `_convert_to_cfg_node` restores the tree. -/
theorem toDictTree_convert :
    ∀ v, wfReach v = true → ∀ pv, toDictTree v = .ok pv →
      convertToCfgNode pv = v := by
  intro v
  induction v using Val.inductionOn with
  | hdict b es IH =>
      intro h pv hok
      obtain ⟨hb, hents⟩ := wfReach_vdict h
      subst hb
      rw [toDictTree] at hok
      cases hes : toDictEntries es with
      | error e => rw [hes] at hok; simp at hok
      | ok es2 =>
          rw [hes] at hok
          simp only [exmap_ok] at hok
          cases hok
          rw [convertToCfgNode,
            toDictEntries_convert hes
              (fun kv hkv => wfReachEntries_mem hents hkv)
              (fun kv hkv => IH kv hkv (wfReachEntries_mem hents hkv))]
  | hlist xs IH =>
      intro h pv hok
      simp [toDictTree, validTypeB] at hok
      subst hok
      exact convertToCfgNode_wfReach _ h
  | htuple xs IH =>
      intro h pv hok
      simp [toDictTree, validTypeB] at hok
      subst hok
      exact convertToCfgNode_wfReach _ h
  | hstr s =>
      intro h pv hok
      simp [toDictTree, validTypeB] at hok
      subst hok
      simp [convertToCfgNode]
  | hint n =>
      intro h pv hok
      simp [toDictTree, validTypeB] at hok
      subst hok
      simp [convertToCfgNode]
  | hfloat q =>
      intro h pv hok
      simp [toDictTree, validTypeB] at hok
      subst hok
      simp [convertToCfgNode]
  | hbool b =>
      intro h pv hok
      simp [toDictTree, validTypeB] at hok
      subst hok
      simp [convertToCfgNode]
  | hnone =>
      intro h pv hok
      simp [toDictTree, validTypeB] at hok
      subst hok
      simp [convertToCfgNode]
  | hobj t =>
      intro h pv hok
      simp [toDictTree, validTypeB] at hok

/-- The evaluator leaves a `noDynamic` node unchanged (given enough fuel),
whatever the contexts: no expression is evaluated and no descriptor call is
made on such a tree. -/
theorem evalNode_plain (o : PyOracle) (g : List (String × Val)) :
    ∀ (fuel : Nat) (v : Val), noDynamic v = true → sizeOf v ≤ fuel →
      ∀ (root : Val) (p : Option Path),
        ∃ root2, evalNode o g fuel v root p = .ok (v, root2) := by
  intro fuel
  induction fuel with
  | zero =>
      intro v _ hsz
      exfalso
      have h1 : 0 < sizeOf v := by
        cases v <;> simp_arith
      omega
  | succ n ih =>
      intro v hnd hsz root p
      match v with
      | .vdict b es =>
          obtain ⟨hb, hshape, hents⟩ := noDynamic_vdict hnd
          subst hb
          have hstep : ∀ kv, kv ∈ es → ∀ root2 p2,
              ∃ root3, evalNode o g n kv.2 root2 p2 = .ok (kv.2, root3) := by
            intro kv hkv root2 p2
            have hs := sizeOf_snd_lt_of_mem_entries (b := true) hkv
            exact ih kv.2 (noDynamicEntries_mem hents hkv) (by omega) root2 p2
          obtain ⟨root2, hrun⟩ := runEntries_plain (evalNode o g n) es hstep root p
          refine ⟨root2, ?_⟩
          rw [evalNode, if_neg (by simp [hshape]), hrun]
          simp
      | .vlist xs =>
          rw [noDynamic] at hnd
          have hstep : ∀ x, x ∈ xs → ∀ root2 p2,
              ∃ root3, evalNode o g n x root2 p2 = .ok (x, root3) := by
            intro x hx root2 p2
            have hs := sizeOf_lt_of_mem_vlist hx
            exact ih x (noDynamicElems_mem hnd hx) (by omega) root2 p2
          obtain ⟨root2, hrun⟩ := runElems_plain (evalNode o g n) xs hstep root p 0
          refine ⟨root2, ?_⟩
          rw [evalNode, hrun]
          simp
      | .vtuple xs =>
          rw [noDynamic] at hnd
          have hstep : ∀ x, x ∈ xs → ∀ root2 p2,
              ∃ root3, evalNode o g n x root2 p2 = .ok (x, root3) := by
            intro x hx root2 p2
            have hs := sizeOf_lt_of_mem_vtuple hx
            exact ih x (noDynamicElems_mem hnd hx) (by omega) root2 p2
          obtain ⟨root2, hrun⟩ := runElems_plain (evalNode o g n) xs hstep root p 0
          refine ⟨root2, ?_⟩
          rw [evalNode, hrun]
          simp
      | .vstr s => rw [noDynamic] at hnd; cases hnd
      | .vint m => exact ⟨root, rfl⟩
      | .vfloat q => exact ⟨root, rfl⟩
      | .vbool c => exact ⟨root, rfl⟩
      | .vnone => exact ⟨root, rfl⟩
      | .vobj t => exact ⟨root, rfl⟩

/-- Unfolding of the evaluator on a descriptor-shaped dict node: `module`
and `name` are popped unevaluated, the remaining entries (so in particular
the `kwargs` value) are evaluated, `kwargs` is popped with an empty-dict
default, and the node's result is the call of the resolved name with those
keyword arguments. -/
theorem evalNode_descriptor_eq (o : PyOracle) (g : List (String × Val))
    (n : Nat) (b : Bool) (es : List (String × Val)) (root : Val)
    (p : Option Path) (es2 : List (String × Val)) (rootA : Val) (bk : Bool)
    (kw : List (String × Val))
    (hsh : isDescShape es = true)
    (hrun : runEntries (evalNode o g n) (eraseKey (eraseKey es MODULE) NAME)
        (applyAt (applyAt root p (dictErase MODULE)) p (dictErase NAME)) p =
        .ok (es2, rootA))
    (hkw : (lookupKey es2 KWARGS).getD (.vdict false []) = .vdict bk kw) :
    evalNode o g (n + 1) (.vdict b es) root p =
      (o.resolveName ((lookupKey es MODULE).getD .vnone)
          ((lookupKey (eraseKey es MODULE) NAME).getD .vnone)).bind (fun f =>
        (o.callKw f kw).map (fun r =>
          (r, applyAt rootA p (dictErase KWARGS)))) := by
  rw [evalNode]
  simp only [hsh, if_true]
  rw [hrun]
  simp only [exbind_ok]
  rw [hkw]

/-- Unfolding of the evaluator on a non-descriptor dict node: every entry is
evaluated and the node stays a mapping (wrapped into a `CfgNode` when it was
a plain dict); no call is made. -/
theorem evalNode_plaindict_eq (o : PyOracle) (g : List (String × Val))
    (n : Nat) (b : Bool) (es : List (String × Val)) (root : Val)
    (p : Option Path)
    (hsh : isDescShape es = false) :
    evalNode o g (n + 1) (.vdict b es) root p =
      (runEntries (evalNode o g n) es root p).bind (fun r1 =>
        if b then .ok (.vdict true r1.1, r1.2)
        else (cfgNodeInit (.vdict false r1.1)).map (fun w => (w, r1.2))) := by
  rw [evalNode]
  simp only [hsh, Bool.false_eq_true, if_false]

/-- Projecting away the root component commutes with the descriptor call
pipeline. -/
theorem mapFst_bind_call (X : Except PyErr Val) (Y : Val → Except PyErr Val)
    (A : Val) :
    ((X.bind (fun f => (Y f).map (fun r => (r, A)))).map
      (fun r : Val × Val => r.1)) = X.bind Y := by
  cases X with
  | error e => rfl
  | ok f =>
      simp only [exbind_ok]
      cases Y f with
      | error e => rfl
      | ok r => rfl

/-- A string expression result is kept as-is. -/
theorem strStep_str (step : Val → Val → Option Path → Except PyErr (Val × Val))
    (root : Val) (t : String) :
    strStep step root (.vstr t) = .ok (.vstr t, root) := rfl

/-- A non-string expression result goes back through the evaluation step. -/
theorem strStep_not_str
    (step : Val → Val → Option Path → Except PyErr (Val × Val))
    (root : Val) (w : Val) (hw : ∀ t, w ≠ Val.vstr t) :
    strStep step root w = step w root none := by
  cases w with
  | vstr t => exact absurd rfl (hw t)
  | vdict b es => rfl
  | vlist xs => rfl
  | vtuple xs => rfl
  | vint n => rfl
  | vfloat q => rfl
  | vbool c => rfl
  | vnone => rfl
  | vobj t => rfl

/-! Claim theorems. -/

/-- C6: evaluating a tree that contains no string nodes, no
descriptor-shaped mappings and no extralibs key returns a tree equal to the
input: every non-string scalar (number, boolean, null, opaque date/time
object) is returned unchanged and is never evaluated as an expression
(no oracle primitive is consulted — the statement holds for every oracle,
including the one where all primitives fail). -/
theorem c6_plain_identity (o : PyOracle) (fuel : Nat) (b : Bool)
    (es : List (String × Val))
    (hnd : noDynamic (.vdict b es) = true)
    (hex : hasKey es EXTRALIBS = false)
    (hsz : sizeOf (Val.vdict b es) ≤ fuel) :
    evalMethod o fuel (.vdict b es) = .ok (.vdict b es) := by
  have hb := (noDynamic_vdict hnd).1
  subst hb
  obtain ⟨root2, hrun⟩ :=
    evalNode_plain o [] fuel (.vdict true es) hnd hsz (.vdict true es) (some [])
  rw [evalMethod, evalMethodFrame, evalMethodRoots,
    lookupKey_eq_none_of_not_hasKey hex, eraseKey_of_not_hasKey hex]
  simp only [Option.getD_none, exbind_ok, resolveExtralibs]
  rw [hrun]
  rfl

/-- Witness for C6 at a concrete plain tree and the all-failing oracle. -/
theorem c6_plain_identity_witness :
    noDynamic tPlain = true ∧ hasKey [("x", Val.vint 3),
      ("l", Val.vlist [Val.vbool true, Val.vnone])] EXTRALIBS = false ∧
    sizeOf tPlain ≤ 1000 ∧
    evalMethod errOracle 1000 tPlain = .ok tPlain :=
  ⟨by simp [tPlain, noDynamic, noDynamicEntries, noDynamicElems, isDescShape,
      hasKey, lookupKey, MODULE, NAME],
   by simp [hasKey, lookupKey, EXTRALIBS],
   by decide,
   c6_plain_identity errOracle 1000 true
     [("x", Val.vint 3), ("l", Val.vlist [Val.vbool true, Val.vnone])]
     (by simp [noDynamic, noDynamicEntries, noDynamicElems, isDescShape,
        hasKey, lookupKey, MODULE, NAME])
     (by simp [hasKey, lookupKey, EXTRALIBS])
     (by decide)⟩

/-- C3: a malformed mapping-form extralib entry — `module` or `name` missing
(or `None`), or any key other than `module` and `name` present — makes
`eval` raise the descriptive `ValueError` of config.py lines 154-160, and
the raise happens while resolving extralibs, before any recursive descent:
the error depends only on the extralibs section (conjunct four holds for
every remaining tree content and every fuel, zero included, so no node
outside `extralibs` is ever evaluated). -/
theorem c3_extralibs_failfast (o : PyOracle) :
    (∀ d info,
      (((lookupKey info MODULE).getD .vnone).isNoneV
        || ((lookupKey (eraseKey info MODULE) NAME).getD .vnone).isNoneV) = true →
      resolveEntry o (.vdict d info) =
        .error (.valueError (missingMsg ((lookupKey info MODULE).getD .vnone)
          ((lookupKey (eraseKey info MODULE) NAME).getD .vnone))))
    ∧ (∀ d info,
      (((lookupKey info MODULE).getD .vnone).isNoneV
        || ((lookupKey (eraseKey info MODULE) NAME).getD .vnone).isNoneV) = false →
      (eraseKey (eraseKey info MODULE) NAME).isEmpty = false →
      resolveEntry o (.vdict d info) =
        .error (.valueError (extraMsg (eraseKey (eraseKey info MODULE) NAME))))
    ∧ (∀ a info rest acc e, resolveEntry o info = .error e →
        resolveExtralibs o ((a, info) :: rest) acc = .error e)
    ∧ (∀ fuel b es exb libs e,
        lookupKey es EXTRALIBS = some (.vdict exb libs) →
        resolveExtralibs o libs [] = .error e →
        evalMethod o fuel (.vdict b es) = .error e) := by
  refine ⟨?_, ?_, ?_, ?_⟩
  · intro d info h
    simp only [resolveEntry]
    rw [if_pos h]
  · intro d info h1 h2
    simp only [resolveEntry]
    rw [if_neg (by simp [h1]), if_neg (by simp [h2])]
  · intro a info rest acc e he
    rw [resolveExtralibs, he]
    rfl
  · intro fuel b es exb libs e hlook hres
    rw [evalMethod, evalMethodFrame, evalMethodRoots, hlook]
    simp only [Option.getD_some, exbind_ok]
    rw [hres]
    rfl

/-- Witness for C3: the entry `{module: "math"}` (missing `name`) produces
the descriptive message, and evaluation of a tree carrying it fails with
that very error even with zero fuel (so without any descent), for the
oracle where every dynamic primitive fails. -/
theorem c3_extralibs_failfast_witness :
    (((lookupKey [(MODULE, Val.vstr "math")] MODULE).getD .vnone).isNoneV
      || ((lookupKey (eraseKey [(MODULE, Val.vstr "math")] MODULE) NAME).getD
        .vnone).isNoneV) = true
    ∧ resolveEntry errOracle badLibEntry =
        .error (.valueError (missingMsg (.vstr "math") .vnone))
    ∧ missingMsg (.vstr "math") .vnone =
        "`module` and `name` must be both specified in `extralibs`, " ++
        "found module: math, name: None."
    ∧ evalMethod errOracle 0 tBadExtra =
        .error (.valueError (missingMsg (.vstr "math") .vnone)) := by
  refine ⟨by decide, ?_, by rfl, ?_⟩
  · have h := (c3_extralibs_failfast errOracle).1 true [(MODULE, Val.vstr "math")]
      (by decide)
    simpa [badLibEntry] using h
  · exact (c3_extralibs_failfast errOracle).2.2.2 0 true
      [(EXTRALIBS, .vdict true [("bad", badLibEntry)]), ("x", .vstr "1+1")]
      true [("bad", badLibEntry)] (.valueError (missingMsg (.vstr "math") .vnone))
      (by rfl)
      ((c3_extralibs_failfast errOracle).2.2.1 "bad" badLibEntry [] []
        (.valueError (missingMsg (.vstr "math") .vnone))
        (by have h := (c3_extralibs_failfast errOracle).1 true
              [(MODULE, Val.vstr "math")] (by decide)
            simpa [badLibEntry] using h))

/-- C5: `eval()` computes its result from the clone made at config.py line
143 and never writes to `self`: the final value of `self` equals its initial
value whatever the oracle, the fuel and the tree (conjunct one), while the
working tree genuinely changes during evaluation — on the concrete tree
`tExtra`, the working tree ends as `{a: 2}`, with `extralibs` popped and the
expression node replaced, and that final working tree differs from the
untouched input (conjuncts two and three). -/
theorem c5_input_unchanged :
    (∀ (o : PyOracle) (fuel : Nat) (t : Val),
      evalMethodFrame o fuel t = (evalMethod o fuel t, t))
    ∧ (evalMethodRoots exprOracle 9 tExtra).map (fun r => r.2) =
        .ok (.vdict true [("a", .vint 2)])
    ∧ (Val.vdict true [("a", .vint 2)]) ≠ tExtra := by
  refine ⟨fun o fuel t => rfl, by rfl, ?_⟩
  intro h
  have hlen := congrArg (fun v => match v with
    | Val.vdict _ es => es.length
    | _ => 0) h
  simp [tExtra] at hlen

/-- Witness for C5 at a concrete oracle, fuel and tree. -/
theorem c5_input_unchanged_witness :
    evalMethodFrame errOracle 0 tExtra = (evalMethod errOracle 0 tExtra, tExtra) :=
  c5_input_unchanged.1 errOracle 0 tExtra

/-- C8 counterexample: `_convert_to_cfg_node` applied to a tuple containing
a plain mapping returns it untouched — the mapping inside the tuple stays a
plain dict and does not become a `CfgNode`, contrary to the claim. -/
theorem c8_tuple_counterexample :
    convertToCfgNode (.vtuple [.vdict false []]) = .vtuple [.vdict false []]
    ∧ (Val.vdict false [] : Val) ≠ .vdict true [] := by
  refine ⟨by simp [convertToCfgNode], ?_⟩
  intro h
  have hb := congrArg (fun v => match v with
    | Val.vdict b _ => b
    | _ => false) h
  simp at hb

/-- C8 amended: the loader reconstruction converts every mapping nested
inside dicts and lists (at any depth) into a `CfgNode` and rebuilds lists
element by element, while tuples — elements included — and all scalars pass
through entirely unchanged. -/
theorem c8_convert_amended :
    (∀ b es, convertToCfgNode (.vdict b es) = .vdict true (convertEntries es))
    ∧ (∀ xs, convertToCfgNode (.vlist xs) = .vlist (convertElems xs))
    ∧ (∀ xs, convertToCfgNode (.vtuple xs) = .vtuple xs)
    ∧ (∀ k v rest, convertEntries ((k, v) :: rest) =
        (k, convertToCfgNode v) :: convertEntries rest)
    ∧ (∀ v rest, convertElems (v :: rest) =
        convertToCfgNode v :: convertElems rest)
    ∧ (∀ s, convertToCfgNode (.vstr s) = .vstr s)
    ∧ (∀ n, convertToCfgNode (.vint n) = .vint n)
    ∧ (∀ q, convertToCfgNode (.vfloat q) = .vfloat q)
    ∧ (∀ c, convertToCfgNode (.vbool c) = .vbool c)
    ∧ convertToCfgNode .vnone = .vnone
    ∧ (∀ t, convertToCfgNode (.vobj t) = .vobj t) :=
  ⟨fun b es => by rw [convertToCfgNode],
   fun xs => by rw [convertToCfgNode],
   fun xs => by simp [convertToCfgNode],
   fun k v rest => by rw [convertEntries],
   fun v rest => by rw [convertElems],
   fun s => by simp [convertToCfgNode],
   fun n => by simp [convertToCfgNode],
   fun q => by simp [convertToCfgNode],
   fun c => by simp [convertToCfgNode],
   by simp [convertToCfgNode],
   fun t => by simp [convertToCfgNode]⟩

/-- C1: a mapping node is treated as an object descriptor if and only if its
key set is exactly `{module, name}` or exactly `{module, name, kwargs}`
(conjunct one, for duplicate-free key lists as Python dicts have); a
descriptor node is replaced by the result of resolving `name` inside the
imported `module`'s namespace (`resolveName` embeds
`eval(name, {}, vars(import_module(module)))`, dotted paths included) and
calling it with the evaluated contents of `kwargs`, defaulting to the empty
mapping (conjunct two); a non-descriptor mapping is never replaced by a call
(conjunct three). -/
theorem c1_descriptor (o : PyOracle) (g : List (String × Val)) :
    (∀ es : List (String × Val), (es.map Prod.fst).Nodup →
      (isDescShape es = true ↔
        keyFinset es = {MODULE, NAME} ∨
        keyFinset es = {MODULE, NAME, KWARGS}))
    ∧ (∀ n b es root p es2 rootA bk kw,
        isDescShape es = true →
        runEntries (evalNode o g n) (eraseKey (eraseKey es MODULE) NAME)
          (applyAt (applyAt root p (dictErase MODULE)) p (dictErase NAME)) p =
          .ok (es2, rootA) →
        (lookupKey es2 KWARGS).getD (.vdict false []) = .vdict bk kw →
        evalNode o g (n + 1) (.vdict b es) root p =
          (o.resolveName ((lookupKey es MODULE).getD .vnone)
              ((lookupKey (eraseKey es MODULE) NAME).getD .vnone)).bind (fun f =>
            (o.callKw f kw).map (fun r =>
              (r, applyAt rootA p (dictErase KWARGS)))))
    ∧ (∀ n b es root p, isDescShape es = false →
        evalNode o g (n + 1) (.vdict b es) root p =
          (runEntries (evalNode o g n) es root p).bind (fun r1 =>
            if b then .ok (.vdict true r1.1, r1.2)
            else (cfgNodeInit (.vdict false r1.1)).map (fun w => (w, r1.2)))) := by
  refine ⟨?_, ?_, ?_⟩
  · intro es hnd
    have h2 := nodup_two_mem_iff hnd (a := MODULE) (b := NAME) (by decide)
    have h3 := nodup_three_mem_iff hnd (a := MODULE) (b := NAME) (c := KWARGS)
      (by decide) (by decide) (by decide)
    rw [List.length_map] at h2 h3
    simp only [isDescShape, Bool.or_eq_true, Bool.and_eq_true, beq_iff_eq,
      hasKey_iff_mem, keyFinset]
    rw [← h2, ← h3]
    tauto
  · intro n b es root p es2 rootA bk kw hsh hrun hkw
    exact evalNode_descriptor_eq o g n b es root p es2 rootA bk kw hsh hrun hkw
  · intro n b es root p hsh
    exact evalNode_plaindict_eq o g n b es root p hsh

/-- Witness for C1: `{module: "math", name: "sqrt", kwargs: {x: 16}}` has
the three-key descriptor key set and evaluates to `4.0` (the working tree
retaining the emptied node until the parent assignment replaces it). -/
theorem c1_descriptor_witness :
    isDescShape sqrtEntries = true
    ∧ (sqrtEntries.map Prod.fst).Nodup
    ∧ keyFinset sqrtEntries = {MODULE, NAME, KWARGS}
    ∧ evalNode sqrtOracle [] 5 (.vdict true sqrtEntries)
        (.vdict true sqrtEntries) (some []) =
      .ok (.vfloat 4, .vdict true []) := by
  refine ⟨by rfl, by decide, ?_, ?_⟩
  · have h := ((c1_descriptor sqrtOracle []).1 sqrtEntries (by decide)).mp (by rfl)
    rcases h with h | h
    · exfalso
      revert h
      decide
    · exact h
  · have h := (c1_descriptor sqrtOracle []).2.1 4 true sqrtEntries
      (.vdict true sqrtEntries) (some [])
      [(KWARGS, .vdict true [("x", .vint 16)])]
      (.vdict true [(KWARGS, .vdict true [("x", .vint 16)])])
      true [("x", .vint 16)]
      (by rfl) (by rfl) (by rfl)
    rw [h]
    rfl

/-- C4: a string node is replaced by the value of the string evaluated as an
expression; a string result is returned as-is, while a non-string result is
fed back through the same node-evaluation rule (conjunct one, the exact
unfolding of the string case).  Conjunct two runs a string expression whose
value is a plain dict literal that is itself a descriptor: it is fully
resolved into the constructed object, not returned as a mapping.  Conjunct
three runs a string expression with a string value: it is returned as-is. -/
theorem c4_string_reeval (o : PyOracle) (g : List (String × Val)) :
    (∀ n s root p, evalNode o g (n + 1) (.vstr s) root p =
      (o.evalExpr s (scope o g root)).bind (strStep (evalNode o g n) root))
    ∧ (∀ n root t, strStep (evalNode o g n) root (.vstr t) =
        .ok (.vstr t, root))
    ∧ (∀ n root w, (∀ t, w ≠ Val.vstr t) →
        strStep (evalNode o g n) root w = evalNode o g n w root none)
    ∧ evalMethod descOracle 9 (.vdict true [("x", .vstr "D")]) =
        .ok (.vdict true [("x", .vobj "built")])
    ∧ evalMethod descOracle 9 (.vdict true [("y", .vstr "S")]) =
        .ok (.vdict true [("y", .vstr "some text")]) :=
  ⟨fun n s root p => rfl,
   fun n root t => strStep_str (evalNode o g n) root t,
   fun n root w hw => strStep_not_str (evalNode o g n) root w hw,
   by rfl, by rfl⟩

/-- Witness for C4: the non-string result `7` of an expression goes back
through the evaluation rule (and, being a plain scalar, stays itself). -/
theorem c4_string_reeval_witness :
    strStep (evalNode descOracle [] 3) (.vdict true []) (.vint 7) =
      evalNode descOracle [] 3 (.vint 7) (.vdict true []) none
    ∧ evalNode descOracle [] 3 (.vint 7) (.vdict true []) none =
      .ok (.vint 7, .vdict true []) :=
  ⟨(c4_string_reeval descOracle []).2.2.1 3 (.vdict true []) (.vint 7)
    (by simp), by rfl⟩

/-- C9 counterexample: the name `len` lies outside both the extralib global
context (empty here) and the keys of the locals tree, yet the string node
`"len"` resolves to the builtin `len` — CPython injects the builtins module
into the globals dict passed to `eval` because it has no `__builtins__` key,
so more names than the two mappings are in scope. -/
theorem c9_builtins_counterexample :
    lookupKey [("x", Val.vstr "len")] "len" = none
    ∧ resolveExtralibs lenOracle [] [] = .ok []
    ∧ lenOracle.builtins "len" = some (.vobj "builtin len")
    ∧ evalMethod lenOracle 3 (.vdict true [("x", .vstr "len")]) =
        .ok (.vdict true [("x", .vobj "builtin len")]) :=
  ⟨by rfl, by rfl, by rfl, by rfl⟩

/-- C9 amended: a string node is evaluated with exactly the CPython `eval`
name-resolution chain — the locals (the working tree) first, then the
globals (the extralib aliases), then the builtins (injected by CPython since
the globals dict carries no `__builtins__` key); a free name outside all
three does not resolve. -/
theorem c9_scope_amended (o : PyOracle) (g : List (String × Val)) (root : Val) :
    (∀ n s p, evalNode o g (n + 1) (.vstr s) root p =
      (o.evalExpr s (scope o g root)).bind (strStep (evalNode o g n) root))
    ∧ (∀ x v, localsLookup root x = some v → scope o g root x = some v)
    ∧ (∀ x v, localsLookup root x = none → lookupKey g x = some v →
        scope o g root x = some v)
    ∧ (∀ x, localsLookup root x = none → lookupKey g x = none →
        scope o g root x = o.builtins x) := by
  refine ⟨fun n s p => rfl, ?_, ?_, ?_⟩
  · intro x v h
    rw [scope, h]
  · intro x v h1 h2
    rw [scope, h1, h2]
  · intro x h1 h2
    rw [scope, h1, h2]

/-- Witness for C9 amended: the name `zzz` is outside the locals, the
(empty) globals and the builtins table, and the scope chain does not resolve
it. -/
theorem c9_scope_amended_witness :
    localsLookup tAB "zzz" = none
    ∧ lookupKey [] "zzz" = none
    ∧ scope lenOracle [] tAB "zzz" = lenOracle.builtins "zzz"
    ∧ lenOracle.builtins "zzz" = none :=
  ⟨by rfl, by rfl,
   (c9_scope_amended lenOracle [] tAB).2.2.2 "zzz" (by rfl) (by rfl),
   by rfl⟩

/-- C10: resolving and calling a descriptor node is independent of the
extralib global context and of the configuration local context: two
evaluations with the same oracle whose descriptor nodes carry the same
`module` and `name` values and whose evaluated `kwargs` coincide produce the
same result value, whatever their global contexts, roots, paths, fuels or
remaining sibling values — the name lookup
(`eval(name, {}, vars(import_module(module)))`) sees only the imported
module's namespace. -/
theorem c10_context_independence (o : PyOracle)
    (g g2 : List (String × Val)) (n n2 : Nat) (b b2 : Bool)
    (es es2 : List (String × Val)) (root root2 rootA rootA2 : Val)
    (p p2 : Option Path) (mv nv : Val) (ev ev2 : List (String × Val))
    (bk bk2 : Bool) (kw : List (String × Val))
    (hsh : isDescShape es = true) (hsh2 : isDescShape es2 = true)
    (hm : (lookupKey es MODULE).getD .vnone = mv)
    (hm2 : (lookupKey es2 MODULE).getD .vnone = mv)
    (hn : (lookupKey (eraseKey es MODULE) NAME).getD .vnone = nv)
    (hn2 : (lookupKey (eraseKey es2 MODULE) NAME).getD .vnone = nv)
    (hrun : runEntries (evalNode o g n) (eraseKey (eraseKey es MODULE) NAME)
        (applyAt (applyAt root p (dictErase MODULE)) p (dictErase NAME)) p =
        .ok (ev, rootA))
    (hrun2 : runEntries (evalNode o g2 n2) (eraseKey (eraseKey es2 MODULE) NAME)
        (applyAt (applyAt root2 p2 (dictErase MODULE)) p2 (dictErase NAME)) p2 =
        .ok (ev2, rootA2))
    (hkw : (lookupKey ev KWARGS).getD (.vdict false []) = .vdict bk kw)
    (hkw2 : (lookupKey ev2 KWARGS).getD (.vdict false []) = .vdict bk2 kw) :
    (evalNode o g (n + 1) (.vdict b es) root p).map (fun r => r.1) =
      (evalNode o g2 (n2 + 1) (.vdict b2 es2) root2 p2).map (fun r => r.1)
    ∧ (evalNode o g (n + 1) (.vdict b es) root p).map (fun r => r.1) =
      (o.resolveName mv nv).bind (fun f => o.callKw f kw) := by
  have h1 := evalNode_descriptor_eq o g n b es root p ev rootA bk kw hsh hrun hkw
  have h2 := evalNode_descriptor_eq o g2 n2 b2 es2 root2 p2 ev2 rootA2 bk2 kw
    hsh2 hrun2 hkw2
  rw [hm, hn] at h1
  rw [hm2, hn2] at h2
  rw [h1, h2, mapFst_bind_call, mapFst_bind_call]
  exact ⟨rfl, rfl⟩

/-- Witness for C10: the descriptor `{module: "math", name: "sqrt"}` (no
kwargs) evaluated under an empty global context inside an empty tree, and
under a non-empty global context inside a different tree, gives the same
value. -/
theorem c10_context_independence_witness :
    (evalNode sqrtOracle [] 3
        (.vdict true [(MODULE, .vstr "math"), (NAME, .vstr "sqrt")])
        (.vdict true []) none).map (fun r => r.1) =
      (evalNode sqrtOracle [("np", .vobj "module math")] 7
        (.vdict true [(MODULE, .vstr "math"), (NAME, .vstr "sqrt")])
        (.vdict true [("other", .vint 5)]) none).map (fun r => r.1) := by
  have h := c10_context_independence sqrtOracle [] [("np", .vobj "module math")]
    2 6 true true
    [(MODULE, .vstr "math"), (NAME, .vstr "sqrt")]
    [(MODULE, .vstr "math"), (NAME, .vstr "sqrt")]
    (.vdict true []) (.vdict true [("other", .vint 5)])
    (.vdict true []) (.vdict true [("other", .vint 5)])
    none none (.vstr "math") (.vstr "sqrt") [] []
    false false []
    (by rfl) (by rfl) (by rfl) (by rfl) (by rfl) (by rfl)
    (by rfl) (by rfl) (by rfl) (by rfl)
  exact h.1

/-- C2 counterexample: in `{a: "1+1", b: "a"}` the code evaluates `b` with
the working tree as locals, where `a` has already been replaced by `2`, so
`b` becomes `2`; under the spec's description (locals = the unevaluated
original tree) `b` would read the original string `"1+1"` and, being a
string result, keep it as-is.  The two disagree, so the locals mapping is
not the unevaluated original input tree. -/
theorem c2_locals_counterexample :
    evalMethod exprOracle 6 tAB =
      .ok (.vdict true [("a", .vint 2), ("b", .vint 2)])
    ∧ evalMethodSpec exprOracle 6 tAB =
        .ok (.vdict true [("a", .vint 2), ("b", .vstr "1+1")])
    ∧ (Val.vint 2 : Val) ≠ .vstr "1+1" := by
  refine ⟨by rfl, by rfl, ?_⟩
  intro h
  have hb := congrArg (fun v => match v with
    | Val.vint _ => (0 : Nat)
    | _ => 1) h
  simp at hb

/-- C2 amended: the locals mapping of every string evaluation is the working
tree itself — the single clone, shared with the evaluation in progress
(extralibs already removed, earlier siblings already replaced by their
evaluated values).  For a two-entry tree `{k1: v1, k2: "s"}` the expression
`s` is evaluated with the tree in which `k1` is already bound to the
evaluated `r1`, not to the original `v1`. -/
theorem c2_locals_amended (o : PyOracle) (m : Nat) (k1 k2 : String) (v1 : Val)
    (s : String) (r1 : Val) (w : Val)
    (hk1 : k1 ≠ EXTRALIBS) (hk2 : k2 ≠ EXTRALIBS)
    (hsh : isDescShape [(k1, v1), (k2, .vstr s)] = false)
    (hv1 : evalNode o [] (m + 1) v1 (.vdict true [(k1, v1), (k2, .vstr s)])
        (some [.field k1]) = .ok (r1, .vdict true [(k1, v1), (k2, .vstr s)]))
    (hs : o.evalExpr s (scope o []
        (dictSet k1 r1 (.vdict true [(k1, v1), (k2, .vstr s)]))) = .ok w) :
    (∀ t, w = .vstr t →
      evalMethod o (m + 2) (.vdict true [(k1, v1), (k2, .vstr s)]) =
        .ok (.vdict true [(k1, r1), (k2, .vstr t)]))
    ∧ ((∀ t, w ≠ Val.vstr t) →
      evalMethod o (m + 2) (.vdict true [(k1, v1), (k2, .vstr s)]) =
        (evalNode o [] m w
          (dictSet k1 r1 (.vdict true [(k1, v1), (k2, .vstr s)])) none).map
          (fun rr => .vdict true [(k1, r1), (k2, rr.1)])) := by
  have hex : hasKey [(k1, v1), (k2, .vstr s)] EXTRALIBS = false := by
    simp [hasKey, lookupKey, hk1, hk2]
  have hcommon : evalMethod o (m + 2) (.vdict true [(k1, v1), (k2, .vstr s)]) =
      ((strStep (evalNode o [] m)
          (dictSet k1 r1 (.vdict true [(k1, v1), (k2, .vstr s)])) w).bind
        (fun (r2 : Val × Val) =>
          (runEntries (evalNode o [] (m + 1)) []
            (applyAt r2.2 (some []) (dictSet k2 r2.1)) (some [])).map
            (fun (r3 : List (String × Val) × Val) =>
              ((k2, r2.1) :: r3.1, r3.2)))).map
        (fun (r4 : List (String × Val) × Val) =>
          Val.vdict true ((k1, r1) :: r4.1)) := by
    rw [evalMethod, evalMethodFrame, evalMethodRoots,
      lookupKey_eq_none_of_not_hasKey hex, eraseKey_of_not_hasKey hex]
    simp only [Option.getD_none, exbind_ok, resolveExtralibs]
    rw [evalNode_plaindict_eq o [] (m + 1) true _ _ _ hsh]
    rw [runEntries]
    simp only [pathSnoc, Option.map_some', List.nil_append]
    rw [hv1]
    simp only [exbind_ok, applyAt, updateAt]
    rw [runEntries]
    simp only [pathSnoc, Option.map_some', List.nil_append]
    rw [evalNode, hs]
    simp only [exbind_ok]
    cases hM : strStep (evalNode o [] m)
        (dictSet k1 r1 (.vdict true [(k1, v1), (k2, .vstr s)])) w with
    | error e => simp
    | ok pr => simp [runEntries, applyAt, updateAt]
  constructor
  · intro t hw
    subst hw
    rw [hcommon, strStep_str]
    rfl
  · intro hw
    rw [hcommon, strStep_not_str _ _ _ hw]
    cases hX : evalNode o [] m w
        (dictSet k1 r1 (.vdict true [(k1, v1), (k2, .vstr s)])) none with
    | error e => rfl
    | ok pr => rfl

/-- Witness for C2 amended, instantiated on `{a: "1+1", b: "a"}`: the locals
of `b`'s evaluation binds `a` to the evaluated `2`, and the method returns
`{a: 2, b: 2}`. -/
theorem c2_locals_amended_witness :
    evalNode exprOracle [] 4 (.vstr "1+1") tAB (some [.field "a"]) =
      .ok (.vint 2, tAB)
    ∧ exprOracle.evalExpr "a"
        (scope exprOracle [] (dictSet "a" (.vint 2) tAB)) = .ok (.vint 2)
    ∧ evalMethod exprOracle 5 tAB =
        .ok (.vdict true [("a", .vint 2), ("b", .vint 2)]) := by
  refine ⟨by rfl, by rfl, ?_⟩
  have h := c2_locals_amended exprOracle 3 "a" "b" (.vstr "1+1") "a"
    (.vint 2) (.vint 2) (by decide) (by decide) (by rfl) (by rfl) (by rfl)
  exact (h.2 (by simp)).trans (by rfl)

/-- C7: for a well-formed tree of whitelisted values, `dump` succeeds and
`load(evaluate=False)` on the dumped text reproduces the tree exactly —
conditional on the out-of-scope YAML serializer round-tripping the plain
projection (hypothesis `hyaml`), which the spec assumes of it. -/
theorem c7_roundtrip (o : PyOracle) (fuel : Nat) (es : List (String × Val))
    (p : Val)
    (hwf : wfReach (.vdict true es) = true)
    (hdump : toDictTree (.vdict true es) = .ok p)
    (hyaml : o.yamlParse (o.yamlDump p) = .ok p) :
    dumpStr o (.vdict true es) = .ok (o.yamlDump p)
    ∧ loadFromText o fuel (o.yamlDump p) false = .ok (.vdict true es) := by
  have hconv : convertToCfgNode p = .vdict true es :=
    toDictTree_convert _ hwf p hdump
  constructor
  · rw [dumpStr, hdump]
    rfl
  · rw [loadFromText, hyaml]
    simp only [exbind_ok]
    rw [hconv]
    simp [isCfgNodeVal]

/-- Witness for C7 on a concrete nested tree and a concrete YAML pair that
round-trips its plain projection. -/
theorem c7_roundtrip_witness :
    wfReach tRound = true
    ∧ toDictTree tRound = .ok pRound
    ∧ yamlOracle.yamlParse (yamlOracle.yamlDump pRound) = .ok pRound
    ∧ dumpStr yamlOracle tRound = .ok "yamltext"
    ∧ loadFromText yamlOracle 5 "yamltext" false = .ok tRound := by
  have hwf : wfReach tRound = true := by
    simp [tRound, wfReach, wfReachEntries, wfReachElems]
  have hdump : toDictTree tRound = .ok pRound := by
    simp [tRound, pRound, toDictTree, toDictEntries, validTypeB]
  have h := c7_roundtrip yamlOracle 5
    [("a", .vint 1), ("l", .vlist [.vint 2]),
     ("sub", .vdict true [("b", .vstr "c")])] pRound hwf hdump (by rfl)
  exact ⟨hwf, hdump, by rfl, h.1, h.2⟩

end Liberyacs
